import Mathlib

/-!
Shallow embedding of the stop-motion re-timing engine
(`video_processor.py` and `frame_extractor.py`).

Conventions of the embedding:
* a source video is a `Source`: whether the path exists, whether the
  capture opens, the reported fps (a rational, standing for the Python
  float), and the decoded frame stream as a list of abstract pixel ids;
* Python exceptions become an `Except PyErr` result;
* every operation also reports how many acquired stream handles were
  NOT released on its exit path (second component of the returned pair),
  modelling the `cap.release()` / `out.release()` calls and the
  `try/finally` blocks of the code;
* Python `%` on ints is `Int.fmod` (sign follows the divisor), and
  `range(k)` for an int `k` has `k.toNat` elements;
* `os.path.getsize`, thumbnails and the actual encoded bytes are not
  modelled: no claim below depends on them.
-/

inductive PyErr where
  | fileNotFound
  | valueError
  | zeroDivisionError
deriving DecidableEq

structure Source where
  pathExists : Bool
  opens : Bool
  fps : ℚ
  frames : List Nat
  width : Nat
  height : Nat

structure VideoInfo where
  fps : ℚ
  frame_count : Nat
  width : Nat
  height : Nat
  duration : ℚ
deriving DecidableEq

/-- get_video_info (video_processor.py lines 22-36): opens a capture,
reads fps / frame_count / width / height and computes
`duration = frame_count / fps`.  The dict literal evaluates the division
before `cap.release()` on line 35 runs, so a zero fps raises
`ZeroDivisionError` with the capture still open (leak count 1).
A capture that fails to open holds no OS handle, so that path leaks 0. -/
def get_video_info (src : Source) : Except PyErr VideoInfo × Nat :=
  if ¬ src.opens then (.error .valueError, 0)
  else if src.fps = 0 then (.error .zeroDivisionError, 1)
  else (.ok ⟨src.fps, src.frames.length, src.width, src.height,
             (src.frames.length : ℚ) / src.fps⟩, 0)

/-- The frame-selection loop shared by `reduce_frames`,
`reduce_frames_authentic` and `extract_frames_with_metadata`:
walk frame indices `0, 1, ...` and keep index `i` iff
`i % r == 0` with Python integer modulo (`Int.fmod`). -/
def pythonKept (n : Nat) (r : Int) : List Nat :=
  (List.range n).filter (fun i => Int.fmod (i : Int) r == 0)

structure ReduceResult where
  original_fps : ℚ
  new_fps : ℚ
  original_frames : Nat
  kept_frames : Nat
  reduction_factor : Int
  original_duration : ℚ
  new_duration : ℚ
  keptIndices : List Nat
deriving DecidableEq

/-- reduce_frames (video_processor.py lines 78-175).  Path check, then
`get_video_info`, then `new_fps = original_fps / r` (line 103, raising
`ZeroDivisionError` for r = 0 before any stream of this call is opened),
then the capture open check (line 107), then `os.makedirs` (line 121,
which can raise after the capture was opened on line 106: that capture
leaks), then the keep-every-Nth loop inside try/finally, then
`new_duration = kept_frames / new_fps` (line 159). -/
def reduce_frames (src : Source) (outDirOk : Bool) (r : Int) :
    Except PyErr ReduceResult × Nat :=
  if ¬ src.pathExists then (.error .fileNotFound, 0)
  else
    match get_video_info src with
    | (.error e, k) => (.error e, k)
    | (.ok info, _) =>
      if r = 0 then (.error .zeroDivisionError, 0)
      else if ¬ src.opens then (.error .valueError, 0)
      else if ¬ outDirOk then (.error .fileNotFound, 1)
      else
        let new_fps := info.fps / (r : ℚ)
        let kept := pythonKept src.frames.length r
        (.ok ⟨info.fps, new_fps, info.frame_count, kept.length, r,
              info.duration, (kept.length : ℚ) / new_fps, kept⟩, 0)

structure AuthResult where
  original_fps : ℚ
  new_fps : ℚ
  output_fps : ℚ
  original_frames : Nat
  kept_frames : Nat
  output_frames : Nat
  reduction_factor : Int
  original_duration : ℚ
  new_duration : ℚ
  maintain_duration : Bool
deriving DecidableEq

/-- reduce_frames_authentic (video_processor.py lines 201-321).
With `maintain_duration` the selected frame is written
`frame_reduction_factor` times (`range(r)`, so `r.toNat` copies),
otherwise once.  For `¬maintain` and r = 0 the division
`original_fps / r` on line 236 raises before the capture on line 239 is
opened; with `maintain` and r = 0 the first `frame_count % 0` inside the
loop raises (only if the stream has a frame), and the try/finally
releases both handles.  On the `maintain` result path line 298 computes
`effective_fps = selected_frames / new_duration`, raising
`ZeroDivisionError` when the original duration is 0 (again after the
finally, so nothing leaks). -/
def reduce_frames_authentic (src : Source) (outDirOk : Bool) (r : Int)
    (maintain : Bool) : Except PyErr AuthResult × Nat :=
  if ¬ src.pathExists then (.error .fileNotFound, 0)
  else
    match get_video_info src with
    | (.error e, k) => (.error e, k)
    | (.ok info, _) =>
      if ¬ maintain ∧ r = 0 then (.error .zeroDivisionError, 0)
      else if ¬ src.opens then (.error .valueError, 0)
      else if ¬ outDirOk then (.error .fileNotFound, 1)
      else if r = 0 ∧ src.frames.length ≠ 0 then (.error .zeroDivisionError, 0)
      else
        let output_fps := if maintain then info.fps else info.fps / (r : ℚ)
        let kept := pythonKept src.frames.length r
        let output_frame_count :=
          if maintain then kept.length * r.toNat else kept.length
        if maintain ∧ info.duration = 0 then (.error .zeroDivisionError, 0)
        else
          let new_duration :=
            if maintain then info.duration
            else (output_frame_count : ℚ) / output_fps
          let effective_fps :=
            if maintain then (kept.length : ℚ) / new_duration else output_fps
          (.ok ⟨info.fps, effective_fps, output_fps, info.frame_count,
                kept.length, output_frame_count, r, info.duration,
                new_duration, maintain⟩, 0)

structure ExtractEntry where
  index : Nat
  original_frame : Nat
  timestamp : ℚ
  hold_duration : Int
  selected : Bool
deriving DecidableEq

structure ExtractResult where
  fps : ℚ
  total_frames : Nat
  duration : ℚ
  frames : List ExtractEntry
  extracted_frames : Nat
deriving DecidableEq

/-- extract_frames_with_metadata (frame_extractor.py lines 19-98).
`duration = total_frames / fps` on line 46 runs after the capture is
opened (line 37) and before the try block (line 52), so a zero fps
raises `ZeroDivisionError` with the capture leaked.  A zero reduction
factor raises inside the loop at the first `frame_count % 0` (released
by the finally).  Each kept frame becomes an entry with its position,
source index, timestamp, `hold_duration = frame_reduction_factor` and
`selected = True`.  Thumbnails are not modelled. -/
def extract_frames_with_metadata (src : Source) (r : Int) :
    Except PyErr ExtractResult × Nat :=
  if ¬ src.pathExists then (.error .fileNotFound, 0)
  else if ¬ src.opens then (.error .valueError, 0)
  else if src.fps = 0 then (.error .zeroDivisionError, 1)
  else if r = 0 ∧ src.frames.length ≠ 0 then (.error .zeroDivisionError, 0)
  else
    let kept := pythonKept src.frames.length r
    let entries := kept.enum.map
      (fun p => ExtractEntry.mk p.1 p.2 ((p.2 : ℚ) / src.fps) r true)
    (.ok ⟨src.fps, src.frames.length,
          (src.frames.length : ℚ) / src.fps, entries, entries.length⟩, 0)

/-- A timeline frame dict as consumed by render_custom_timing:
`frame_data.get('selected', True)` and
`frame_data.get('hold_duration', 2)` make both fields optional. -/
structure FrameData where
  original_frame : Nat
  hold_duration : Option Int
  selected : Option Bool
deriving DecidableEq

/-- The emission loop of render_custom_timing (frame_extractor.py lines
234-251): skip an entry whose `selected` (default True) is false, seek
to its source index, skip it if the read fails (index past the end),
otherwise write the frame `range(hold_duration)` times with
`hold_duration` defaulting to 2. -/
def emitTimeline (video : List Nat) : List FrameData → List Nat
  | [] => []
  | fd :: rest =>
    (if fd.selected.getD true then
      match video.get? fd.original_frame with
      | some f => List.replicate (fd.hold_duration.getD 2).toNat f
      | none => []
    else []) ++ emitTimeline video rest

structure RenderCTResult where
  original_frames : Nat
  output_frames : Nat
  output_duration : ℚ
  original_fps : ℚ
  emitted : List Nat
deriving DecidableEq

/-- render_custom_timing (frame_extractor.py lines 199-270): open the
capture (no path check), run the emission loop inside try/finally, then
compute `output_duration = total_output_frames / original_fps` on line
258 — after the finally, so a zero fps raises `ZeroDivisionError` with
both handles already released. -/
def render_custom_timing (src : Source) (timeline : List FrameData) :
    Except PyErr RenderCTResult × Nat :=
  if ¬ src.opens then (.error .valueError, 0)
  else
    let emitted := emitTimeline src.frames timeline
    if src.fps = 0 then (.error .zeroDivisionError, 0)
    else
      (.ok ⟨timeline.length, emitted.length,
            (emitted.length : ℚ) / src.fps, src.fps, emitted⟩, 0)

/-- Ceiling division on naturals, the expected kept-frame count. -/
def ceilDiv (n k : Nat) : Nat := (n + k - 1) / k

/-- Whether an Except result is a success. -/
def isOkE {α : Type} (x : Except PyErr α) : Bool :=
  match x with
  | .ok _ => true
  | .error _ => false

/-- Kept source indices reported by a reduce_frames run ([] on error). -/
def rfKept (x : Except PyErr ReduceResult) : List Nat :=
  match x with
  | .ok v => v.keptIndices
  | .error _ => []

/-- Source indices of the entries produced by an
extract_frames_with_metadata run ([] on error). -/
def exKept (x : Except PyErr ExtractResult) : List Nat :=
  match x with
  | .ok v => v.frames.map ExtractEntry.original_frame
  | .error _ => []

/-- The ReduceResult of a reduce_frames run (zeroed dummy on error). -/
def rfResult (x : Except PyErr ReduceResult × Nat) : ReduceResult :=
  match x.1 with
  | .ok v => v
  | .error _ => ⟨0, 0, 0, 0, 0, 0, 0, []⟩

/-- The AuthResult of a reduce_frames_authentic run (dummy on error). -/
def authResult (x : Except PyErr AuthResult × Nat) : AuthResult :=
  match x.1 with
  | .ok v => v
  | .error _ => ⟨0, 0, 0, 0, 0, 0, 0, 0, 0, false⟩

/-- The RenderCTResult of a render_custom_timing run (dummy on error). -/
def rcResult (x : Except PyErr RenderCTResult × Nat) : RenderCTResult :=
  match x.1 with
  | .ok v => v
  | .error _ => ⟨0, 0, 0, 0, []⟩

/-- A 90-frame, 30 fps source (the scenario of the spec). -/
def src90 : Source := ⟨true, true, 30, List.range 90, 640, 480⟩

/-- A 3-frame, 30 fps source. -/
def src3 : Source := ⟨true, true, 30, [10, 20, 30], 640, 480⟩

/-- A source whose stream reports 0 frames and fps 0. -/
def src0 : Source := ⟨true, true, 0, [], 640, 480⟩

/-- A small concrete timeline: an explicitly selected entry holding 3,
a deselected entry holding 5, and an entry with both keys absent. -/
def tl3 : List FrameData :=
  [⟨0, some 3, some true⟩, ⟨1, some 5, some false⟩, ⟨2, none, none⟩]

/-! JSON timeline persistence (frame_extractor.py lines 152-187).
`save_timeline_config` serializes `{version: '1.0', frames: frames_data,
created_at: ...}` with json.dump; since pandas is never imported in
frame_extractor.py, `'pd' in globals()` is always false and created_at
is always the literal string "unknown", so the saved bytes are a pure
function of frames_data.  `load_timeline_config` parses the file with
json.load and returns the whole config.  The model implements the
serializer/parser pair for the persistence format: a `frames` value is
a list of flat JSON objects whose values are null / bool / int / string
atoms (the numeric fields are modelled as integers).  The whitespace
layout of `json.dump(..., indent=2)` is abstracted: writer and parser
agree on a canonical single-space layout, which the round-trip contract
does not depend on. -/

abbrev Str := List Char

inductive JAtom where
  | jnull
  | jbool (b : Bool)
  | jint (n : Int)
  | jstr (s : Str)
deriving DecidableEq, Inhabited

abbrev JField := Str × JAtom
abbrev JEntry := List JField
abbrev JFrames := List JEntry

/-- A string the JSON writer can emit verbatim (no escaping needed). -/
def validStrB (s : Str) : Bool := s.all (fun c => c != '"' && c != '\\')

def validAtomB : JAtom → Bool
  | .jstr s => validStrB s
  | _ => true

def validFieldB (f : JField) : Bool := validStrB f.1 && validAtomB f.2

def validEntryB (e : JEntry) : Bool := e.all validFieldB

def validFramesB (fs : JFrames) : Bool := fs.all validEntryB

def natToChars (n : Nat) : Str :=
  if h : n < 10 then [Char.ofNat (48 + n)]
  else natToChars (n / 10) ++ [Char.ofNat (48 + n % 10)]
termination_by n
decreasing_by exact Nat.div_lt_self (by omega) (by omega)

def intToChars (i : Int) : Str :=
  if i < 0 then '-' :: natToChars i.natAbs else natToChars i.toNat

def writeAtom : JAtom → Str
  | .jnull => ['n', 'u', 'l', 'l']
  | .jbool true => ['t', 'r', 'u', 'e']
  | .jbool false => ['f', 'a', 'l', 's', 'e']
  | .jint n => intToChars n
  | .jstr s => '"' :: s ++ ['"']

def writeField (f : JField) : Str :=
  '"' :: f.1 ++ '"' :: ':' :: ' ' :: writeAtom f.2

def writeFieldsTail : List JField → Str
  | [] => []
  | f :: fs => ',' :: ' ' :: writeField f ++ writeFieldsTail fs

def writeEntry : JEntry → Str
  | [] => ['{', '}']
  | f :: fs => '{' :: writeField f ++ writeFieldsTail fs ++ ['}']

def writeEntriesTail : List JEntry → Str
  | [] => []
  | e :: es => ',' :: ' ' :: writeEntry e ++ writeEntriesTail es

def writeFrames : JFrames → Str
  | [] => ['[', ']']
  | e :: es => '[' :: writeEntry e ++ writeEntriesTail es ++ [']']

def versionKey : Str := ['v', 'e', 'r', 's', 'i', 'o', 'n']

def versionVal : Str := ['1', '.', '0']

def framesKey : Str := ['f', 'r', 'a', 'm', 'e', 's']

def createdKey : Str := ['c', 'r', 'e', 'a', 't', 'e', 'd', '_', 'a', 't']

def createdVal : Str := ['u', 'n', 'k', 'n', 'o', 'w', 'n']

/-- save_timeline_config (frame_extractor.py lines 152-169): serialize
the config dict `{'version': '1.0', 'frames': frames_data,
'created_at': 'unknown'}` in insertion order. -/
def save_timeline_config (frames_data : JFrames) : Str :=
  '{' :: writeField (versionKey, .jstr versionVal) ++
  ',' :: ' ' :: '"' :: framesKey ++ '"' :: ':' :: ' ' ::
    writeFrames frames_data ++
  ',' :: ' ' :: writeField (createdKey, .jstr createdVal) ++ ['}']

def digitVal (c : Char) : Option Nat :=
  if 48 ≤ c.toNat ∧ c.toNat ≤ 57 then some (c.toNat - 48) else none

/-- True when the input does not begin with a decimal digit (so a
numeral parse that stops here is complete). -/
def notDigitStartB : Str → Bool
  | [] => true
  | c :: _ => (digitVal c).isNone

def parseDigits : Str → Nat → Nat × Str
  | [], acc => (acc, [])
  | c :: cs, acc =>
    match digitVal c with
    | some d => parseDigits cs (acc * 10 + d)
    | none => (acc, c :: cs)

def parseNat (cs : Str) : Option (Nat × Str) :=
  match cs with
  | [] => none
  | c :: _ => if (digitVal c).isSome then some (parseDigits cs 0) else none

def parseInt (cs : Str) : Option (Int × Str) :=
  match cs with
  | [] => none
  | c :: cs2 =>
    if c = '-' then (parseNat cs2).map (fun p => (-(p.1 : Int), p.2))
    else (parseNat (c :: cs2)).map (fun p => ((p.1 : Int), p.2))

def takeStr : Str → Option (Str × Str)
  | [] => none
  | c :: cs =>
    if c = '"' then some ([], cs)
    else (takeStr cs).map (fun p => (c :: p.1, p.2))

def parseAtom (cs : Str) : Option (JAtom × Str) :=
  match cs with
  | [] => none
  | c :: rest =>
    if c = '"' then (takeStr rest).map (fun p => (.jstr p.1, p.2))
    else if c = 'n' then
      match rest with
      | 'u' :: 'l' :: 'l' :: r => some (.jnull, r)
      | _ => none
    else if c = 't' then
      match rest with
      | 'r' :: 'u' :: 'e' :: r => some (.jbool true, r)
      | _ => none
    else if c = 'f' then
      match rest with
      | 'a' :: 'l' :: 's' :: 'e' :: r => some (.jbool false, r)
      | _ => none
    else (parseInt (c :: rest)).map (fun p => (.jint p.1, p.2))

def parseField (cs : Str) : Option (JField × Str) :=
  match cs with
  | '"' :: rest =>
    match takeStr rest with
    | some (k, r1) =>
      match r1 with
      | ':' :: ' ' :: r2 => (parseAtom r2).map (fun p => ((k, p.1), p.2))
      | _ => none
    | none => none
  | _ => none

def parseFieldsTail : Nat → Str → Option (List JField × Str)
  | 0, _ => none
  | _ + 1, '}' :: rest => some ([], rest)
  | fuel + 1, ',' :: ' ' :: rest =>
    match parseField rest with
    | some (f, r1) =>
      (parseFieldsTail fuel r1).map (fun p => (f :: p.1, p.2))
    | none => none
  | _ + 1, _ => none

def parseEntry (fuel : Nat) (cs : Str) : Option (JEntry × Str) :=
  match cs with
  | '{' :: '}' :: rest => some ([], rest)
  | '{' :: rest =>
    match parseField rest with
    | some (f, r1) =>
      (parseFieldsTail fuel r1).map (fun p => (f :: p.1, p.2))
    | none => none
  | _ => none

def parseEntriesTail : Nat → Str → Option (List JEntry × Str)
  | 0, _ => none
  | _ + 1, ']' :: rest => some ([], rest)
  | fuel + 1, ',' :: ' ' :: rest =>
    match parseEntry fuel rest with
    | some (e, r1) =>
      (parseEntriesTail fuel r1).map (fun p => (e :: p.1, p.2))
    | none => none
  | _ + 1, _ => none

def parseFrames (fuel : Nat) (cs : Str) : Option (JFrames × Str) :=
  match cs with
  | '[' :: ']' :: rest => some ([], rest)
  | '[' :: rest =>
    match parseEntry fuel rest with
    | some (e, r1) =>
      (parseEntriesTail fuel r1).map (fun p => (e :: p.1, p.2))
    | none => none
  | _ => none

/-- The parsed configuration dict: version field, frames key, frames
array, created_at field — exactly what load_timeline_config returns. -/
structure JConfig where
  version : JField
  frames_key : Str
  frames : JFrames
  created : JField
deriving DecidableEq, Inhabited

def parseConfig (fuel : Nat) (cs : Str) : Option JConfig :=
  match cs with
  | '{' :: r0 =>
    match parseField r0 with
    | some (f1, r1) =>
      match r1 with
      | ',' :: ' ' :: '"' :: r2 =>
        match takeStr r2 with
        | some (k2, r3) =>
          match r3 with
          | ':' :: ' ' :: r4 =>
            match parseFrames fuel r4 with
            | some (fr, r5) =>
              match r5 with
              | ',' :: ' ' :: r6 =>
                match parseField r6 with
                | some (f3, r7) =>
                  match r7 with
                  | ['}'] => some ⟨f1, k2, fr, f3⟩
                  | _ => none
                | none => none
              | _ => none
            | none => none
          | _ => none
        | none => none
      | _ => none
    | none => none
  | _ => none

/-- load_timeline_config (frame_extractor.py lines 171-187): parse the
saved file content and return the whole config. -/
def load_timeline_config (cs : Str) : Option JConfig :=
  parseConfig cs.length cs

/-- frames content of a loaded config ([] when loading failed). -/
def loadedFrames (cs : Str) : JFrames :=
  match load_timeline_config cs with
  | some cfg => cfg.frames
  | none => []

/-- Fuel measure: the number of entries plus the number of fields. -/
def jsize (es : JFrames) : Nat := es.length + (es.map List.length).sum

/-- A concrete one-entry frames list shaped like the dicts produced by
extract_frames_with_metadata. -/
def fd0 : JFrames :=
  [[(['i', 'n', 'd', 'e', 'x'], .jint 0),
    (['o', 'r', 'i', 'g', 'i', 'n', 'a', 'l', '_', 'f', 'r', 'a', 'm', 'e'],
      .jint 0),
    (['t', 'i', 'm', 'e', 's', 't', 'a', 'm', 'p'], .jint 0),
    (['t', 'h', 'u', 'm', 'b', 'n', 'a', 'i', 'l'],
      .jstr ['d', 'a', 't', 'a']),
    (['h', 'o', 'l', 'd', '_', 'd', 'u', 'r', 'a', 't', 'i', 'o', 'n'],
      .jint 3),
    (['s', 'e', 'l', 'e', 'c', 't', 'e', 'd'], .jbool true)]]

theorem pythonKept_natCast (n m : Nat) :
    pythonKept n (m : Int) = (List.range n).filter (fun i => i % m == 0) := by
  unfold pythonKept
  apply List.filter_congr
  intro i _
  have h1 : Int.fmod (i : Int) (m : Int) = ((i % m : Nat) : Int) := by
    rw [Int.fmod_eq_emod _ (Int.natCast_nonneg m)]
    push_cast
    rfl
  rw [h1, Bool.beq_eq_decide_eq, Bool.beq_eq_decide_eq]
  exact decide_eq_decide.mpr Int.natCast_eq_zero

theorem ceilDiv_succ (n r : Nat) (hr : 0 < r) :
    ceilDiv (n + 1) r = ceilDiv n r + (if n % r = 0 then 1 else 0) := by
  obtain ⟨q, s, hslt, rfl⟩ : ∃ q s, s < r ∧ n = r * q + s :=
    ⟨n / r, n % r, Nat.mod_lt _ hr, (Nat.div_add_mod n r).symm⟩
  have hmul : r * (q + 1) = r * q + r := by ring
  have hmod : (r * q + s) % r = s := by
    rw [Nat.mul_add_mod, Nat.mod_eq_of_lt hslt]
  unfold ceilDiv
  rw [hmod]
  by_cases h : s = 0
  · subst h
    rw [if_pos rfl]
    have e1 : r * q + 0 + 1 + r - 1 = r * (q + 1) + 0 := by omega
    have e2 : r * q + 0 + r - 1 = r * q + (r - 1) := by omega
    rw [e1, e2, Nat.mul_add_div hr, Nat.mul_add_div hr, Nat.zero_div,
        Nat.div_eq_of_lt (show r - 1 < r by omega)]
  · rw [if_neg h]
    have e1 : r * q + s + 1 + r - 1 = r * (q + 1) + s := by omega
    have e2 : r * q + s + r - 1 = r * (q + 1) + (s - 1) := by omega
    rw [e1, e2, Nat.mul_add_div hr, Nat.mul_add_div hr,
        Nat.div_eq_of_lt hslt, Nat.div_eq_of_lt (show s - 1 < r by omega)]

theorem length_keptNat (r : Nat) (hr : 0 < r) (n : Nat) :
    ((List.range n).filter (fun i => i % r == 0)).length = ceilDiv n r := by
  induction n with
  | zero =>
    simp [ceilDiv, Nat.div_eq_of_lt (show r - 1 < r by omega)]
  | succ n ih =>
    rw [List.range_succ, List.filter_append, List.length_append, ih,
        ceilDiv_succ n r hr]
    by_cases h : n % r = 0 <;> simp [h]

theorem mem_keptNat (r n i : Nat) :
    i ∈ (List.range n).filter (fun j => j % r == 0) ↔ r ∣ i ∧ i < n := by
  simp only [List.mem_filter, List.mem_range, beq_iff_eq,
             ← Nat.dvd_iff_mod_eq_zero]
  exact and_comm

theorem sorted_keptNat (r n : Nat) :
    ((List.range n).filter (fun j => j % r == 0)).Pairwise (· < ·) :=
  (List.pairwise_lt_range n).filter _

/-- C2: for every reductionFactor r ≥ 1 and every frame stream, the
mod-r selection loop of reduce_frames and extract_frames_with_metadata
keeps exactly ceil(N / r) frames, the kept source indices are exactly
the multiples of r strictly below N, and they are strictly increasing. -/
theorem frameSampler_kept (src : Source) (r : Int) (hr : 1 ≤ r)
    (hex : src.pathExists = true) (hop : src.opens = true)
    (hfps : src.fps ≠ 0) :
    isOkE (reduce_frames src true r).1 = true ∧
    rfKept (reduce_frames src true r).1 = pythonKept src.frames.length r ∧
    exKept (extract_frames_with_metadata src r).1 =
      pythonKept src.frames.length r ∧
    (pythonKept src.frames.length r).length =
      ceilDiv src.frames.length r.toNat ∧
    (∀ i, i ∈ pythonKept src.frames.length r ↔
      r.toNat ∣ i ∧ i < src.frames.length) ∧
    (pythonKept src.frames.length r).Pairwise (fun a b => a < b) := by
  have hr0 : r ≠ 0 := by omega
  have hcast : (r.toNat : Int) = r := Int.toNat_of_nonneg (by omega)
  have hkey : pythonKept src.frames.length r =
      (List.range src.frames.length).filter (fun i => i % r.toNat == 0) := by
    rw [← hcast]
    exact pythonKept_natCast _ _
  refine ⟨?_, ?_, ?_, ?_, ?_, ?_⟩
  · simp [reduce_frames, get_video_info, hex, hop, hfps, hr0, isOkE]
  · simp [reduce_frames, get_video_info, hex, hop, hfps, hr0, rfKept]
  · have hcomp : (ExtractEntry.original_frame ∘
        fun p : Nat × Nat =>
          ExtractEntry.mk p.1 p.2 ((p.2 : ℚ) / src.fps) r true) =
        Prod.snd := rfl
    simp [extract_frames_with_metadata, hex, hop, hfps, hr0, exKept,
          List.map_map, List.enum_eq_enumFrom, hcomp]
  · rw [hkey]
    exact length_keptNat r.toNat (by omega) _
  · intro i
    rw [hkey]
    exact mem_keptNat r.toNat _ i
  · rw [hkey]
    exact sorted_keptNat _ _

/-- Witness for frameSampler_kept: the spec scenario, 90 frames at
reduction factor 3 (the hypotheses hold and so does the conclusion). -/
theorem frameSampler_kept_witness :
    ((1 : Int) ≤ 3 ∧ src90.pathExists = true ∧ src90.opens = true ∧
      src90.fps ≠ 0) ∧
    (isOkE (reduce_frames src90 true 3).1 = true ∧
    rfKept (reduce_frames src90 true 3).1 =
      pythonKept src90.frames.length 3 ∧
    exKept (extract_frames_with_metadata src90 3).1 =
      pythonKept src90.frames.length 3 ∧
    (pythonKept src90.frames.length 3).length =
      ceilDiv src90.frames.length (3 : Int).toNat ∧
    (∀ i, i ∈ pythonKept src90.frames.length 3 ↔
      (3 : Int).toNat ∣ i ∧ i < src90.frames.length) ∧
    (pythonKept src90.frames.length 3).Pairwise (fun a b => a < b)) :=
  ⟨⟨by decide, by decide, by decide, by decide⟩,
   frameSampler_kept src90 3 (by decide) (by decide) (by decide) (by decide)⟩

theorem pythonKept_length (n : Nat) (r : Int) (hr : 1 ≤ r) :
    (pythonKept n r).length = ceilDiv n r.toNat := by
  have hcast : (r.toNat : Int) = r := Int.toNat_of_nonneg (by omega)
  rw [← hcast, pythonKept_natCast]
  exact length_keptNat r.toNat (by omega) n

theorem ceilDiv_of_dvd (n t : Nat) (ht : 0 < t) (hdvd : t ∣ n) :
    ceilDiv n t = n / t := by
  obtain ⟨m, rfl⟩ := hdvd
  unfold ceilDiv
  rw [Nat.mul_div_cancel_left m ht,
      show t * m + t - 1 = t * m + (t - 1) by omega,
      Nat.mul_add_div ht, Nat.div_eq_of_lt (by omega)]
  omega

/-- C1 counterexample: on the spec scenario (90 frames at 30 fps,
reductionFactor 3), reduce_frames reports new_duration = 3.0 s while the
claim demands original_duration / 3 = 1.0 s: the reported duration does
not shrink proportionally to the reduction factor. -/
theorem rateReducing_shrink_counterexample :
    (rfResult (reduce_frames src90 true 3)).new_fps = 10 ∧
    (rfResult (reduce_frames src90 true 3)).original_duration = 3 ∧
    (rfResult (reduce_frames src90 true 3)).new_duration = 3 ∧
    (rfResult (reduce_frames src90 true 3)).new_duration ≠
      (rfResult (reduce_frames src90 true 3)).original_duration / 3 := by
  have hlen : (pythonKept 90 3).length = 30 := by decide
  refine ⟨?_, ?_, ?_, ?_⟩ <;>
    norm_num [rfResult, reduce_frames, get_video_info, src90, hlen]

/-- C1 amended: a RateReducing render (reduce_frames, and
reduce_frames_authentic with maintain_duration = False) reports
outputFrameRate = fps / r, but its reported duration is
ceil(N/r) * r / fps — approximately the ORIGINAL duration, equal to it
whenever r divides N — not original_duration / r. -/
theorem rateReducing_duration (src : Source) (r : Int) (hr : 1 ≤ r)
    (hex : src.pathExists = true) (hop : src.opens = true)
    (hfps : 0 < src.fps) :
    isOkE (reduce_frames src true r).1 = true ∧
    (rfResult (reduce_frames src true r)).new_fps = src.fps / (r : ℚ) ∧
    (rfResult (reduce_frames src true r)).new_duration =
      ((ceilDiv src.frames.length r.toNat : Nat) : ℚ) * (r : ℚ) / src.fps ∧
    (authResult (reduce_frames_authentic src true r false)).output_fps =
      src.fps / (r : ℚ) ∧
    (authResult (reduce_frames_authentic src true r false)).new_duration =
      ((ceilDiv src.frames.length r.toNat : Nat) : ℚ) * (r : ℚ) / src.fps ∧
    (r.toNat ∣ src.frames.length →
      (rfResult (reduce_frames src true r)).new_duration =
        (rfResult (reduce_frames src true r)).original_duration) := by
  have hr0 : r ≠ 0 := by omega
  have hfa : src.fps ≠ 0 := ne_of_gt hfps
  have hcast : (r.toNat : Int) = r := Int.toNat_of_nonneg (by omega)
  have hrq : ((r.toNat : Nat) : ℚ) = ((r : Int) : ℚ) := by
    rw [← hcast]
    push_cast
    rfl
  have htpos : 0 < r.toNat := by omega
  have hred : reduce_frames src true r =
      (.ok ⟨src.fps, src.fps / (r : ℚ), src.frames.length,
            (pythonKept src.frames.length r).length, r,
            (src.frames.length : ℚ) / src.fps,
            ((pythonKept src.frames.length r).length : ℚ) /
              (src.fps / (r : ℚ)),
            pythonKept src.frames.length r⟩, 0) := by
    simp [reduce_frames, get_video_info, hex, hop, hfa, hr0]
  have hauth : reduce_frames_authentic src true r false =
      (.ok ⟨src.fps, src.fps / (r : ℚ), src.fps / (r : ℚ),
            src.frames.length, (pythonKept src.frames.length r).length,
            (pythonKept src.frames.length r).length, r,
            (src.frames.length : ℚ) / src.fps,
            ((pythonKept src.frames.length r).length : ℚ) /
              (src.fps / (r : ℚ)), false⟩, 0) := by
    simp [reduce_frames_authentic, get_video_info, hex, hop, hfa, hr0]
  have hdur : ((pythonKept src.frames.length r).length : ℚ) /
      (src.fps / (r : ℚ)) =
      ((ceilDiv src.frames.length r.toNat : Nat) : ℚ) * (r : ℚ) / src.fps := by
    rw [pythonKept_length _ _ hr, div_div_eq_mul_div]
  refine ⟨?_, ?_, ?_, ?_, ?_, ?_⟩
  · rw [hred]
    rfl
  · rw [hred]
    rfl
  · rw [hred]
    exact hdur
  · rw [hauth]
    rfl
  · rw [hauth]
    exact hdur
  · intro hdvd
    rw [hred]
    show ((pythonKept src.frames.length r).length : ℚ) /
        (src.fps / (r : ℚ)) = (src.frames.length : ℚ) / src.fps
    rw [hdur, ceilDiv_of_dvd _ _ htpos hdvd]
    have hmc : ((src.frames.length / r.toNat : Nat) : ℚ) * ((r.toNat : Nat) : ℚ)
        = (src.frames.length : ℚ) := by
      rw [← Nat.cast_mul]
      exact congrArg Nat.cast (Nat.div_mul_cancel hdvd)
    rw [← hrq, hmc]

/-- Witness for rateReducing_duration at the spec scenario: 90 frames,
30 fps, reduction factor 3 (3 divides 90, so the duration is exactly
preserved: 3.0 s, not 1.0 s). -/
theorem rateReducing_duration_witness :
    ((1 : Int) ≤ 3 ∧ src90.pathExists = true ∧ src90.opens = true ∧
      (0 : ℚ) < src90.fps) ∧
    (isOkE (reduce_frames src90 true 3).1 = true ∧
    (rfResult (reduce_frames src90 true 3)).new_fps = src90.fps / (3 : ℚ) ∧
    (rfResult (reduce_frames src90 true 3)).new_duration =
      ((ceilDiv src90.frames.length (3 : Int).toNat : Nat) : ℚ) * (3 : ℚ) /
        src90.fps ∧
    (authResult (reduce_frames_authentic src90 true 3 false)).output_fps =
      src90.fps / (3 : ℚ) ∧
    (authResult (reduce_frames_authentic src90 true 3 false)).new_duration =
      ((ceilDiv src90.frames.length (3 : Int).toNat : Nat) : ℚ) * (3 : ℚ) /
        src90.fps ∧
    ((3 : Int).toNat ∣ src90.frames.length →
      (rfResult (reduce_frames src90 true 3)).new_duration =
        (rfResult (reduce_frames src90 true 3)).original_duration)) :=
  ⟨⟨by decide, by decide, by decide, by decide⟩,
   rateReducing_duration src90 3 (by decide) (by decide) (by decide)
     (by decide)⟩

theorem emitTimeline_sum (video : List Nat) (tl : List FrameData)
    (hread : ∀ fd ∈ tl, fd.selected.getD true = true →
      fd.original_frame < video.length)
    (hhold : ∀ fd ∈ tl, fd.selected.getD true = true →
      1 ≤ fd.hold_duration.getD 2) :
    ((emitTimeline video tl).length : Int) =
      ((tl.filter (fun fd => fd.selected.getD true)).map
        (fun fd => fd.hold_duration.getD 2)).sum := by
  induction tl with
  | nil => simp [emitTimeline]
  | cons fd rest ih =>
    have ihr := ih (fun x hx h => hread x (List.mem_cons_of_mem _ hx) h)
      (fun x hx h => hhold x (List.mem_cons_of_mem _ hx) h)
    by_cases hsel : fd.selected.getD true = true
    · have hlt := hread fd (List.mem_cons_self _ _) hsel
      have hh := hhold fd (List.mem_cons_self _ _) hsel
      unfold emitTimeline
      rw [if_pos hsel, List.get?_eq_get hlt]
      simp only [List.length_append, List.length_replicate,
                 List.filter_cons, hsel, if_pos, List.map_cons,
                 List.sum_cons]
      push_cast
      rw [Int.toNat_of_nonneg (by omega), ihr]
    · have hsel' : fd.selected.getD true = false := by
        cases h : fd.selected.getD true
        · rfl
        · exact absurd h hsel
      unfold emitTimeline
      rw [if_neg hsel]
      simp only [List.nil_append, List.filter_cons, hsel']
      simpa using ihr

/-- C3: when every selected entry's source frame is readable (and the
entries are valid TimelineEntries with holdDuration ≥ 1), the custom
timeline render reports outputFrameCount = sum of holdDuration over the
selected entries — unselected entries contribute nothing whatever their
holdDuration — and the duration-preserving render writes each selected
frame exactly reductionFactor times. -/
theorem outputFrames_eq_holdSum (src : Source) (tl : List FrameData)
    (r : Int) (hr : 1 ≤ r) (hex : src.pathExists = true)
    (hop : src.opens = true) (hfps : src.fps ≠ 0)
    (hN : src.frames.length ≠ 0)
    (hread : ∀ fd ∈ tl, fd.selected.getD true = true →
      fd.original_frame < src.frames.length)
    (hhold : ∀ fd ∈ tl, fd.selected.getD true = true →
      1 ≤ fd.hold_duration.getD 2) :
    isOkE (render_custom_timing src tl).1 = true ∧
    ((rcResult (render_custom_timing src tl)).output_frames : Int) =
      ((tl.filter (fun fd => fd.selected.getD true)).map
        (fun fd => fd.hold_duration.getD 2)).sum ∧
    isOkE (reduce_frames_authentic src true r true).1 = true ∧
    (authResult (reduce_frames_authentic src true r true)).output_frames =
      (authResult (reduce_frames_authentic src true r true)).kept_frames *
        r.toNat := by
  have hr0 : r ≠ 0 := by omega
  have hdur : (src.frames.length : ℚ) / src.fps ≠ 0 :=
    div_ne_zero (Nat.cast_ne_zero.mpr hN) hfps
  have hauth : reduce_frames_authentic src true r true =
      (.ok ⟨src.fps,
            ((pythonKept src.frames.length r).length : ℚ) /
              ((src.frames.length : ℚ) / src.fps),
            src.fps, src.frames.length,
            (pythonKept src.frames.length r).length,
            (pythonKept src.frames.length r).length * r.toNat, r,
            (src.frames.length : ℚ) / src.fps,
            (src.frames.length : ℚ) / src.fps, true⟩, 0) := by
    simp [reduce_frames_authentic, get_video_info, hex, hop, hfps, hr0,
          hdur]
  refine ⟨?_, ?_, ?_, ?_⟩
  · simp [render_custom_timing, hop, hfps, isOkE]
  · have hout : (rcResult (render_custom_timing src tl)).output_frames =
        (emitTimeline src.frames tl).length := by
      simp [render_custom_timing, hop, hfps, rcResult]
    rw [hout]
    exact emitTimeline_sum src.frames tl hread hhold
  · rw [hauth]
    rfl
  · rw [hauth]
    rfl

/-- Witness for outputFrames_eq_holdSum: the 3-frame source and the
timeline tl3 (selected hold 3, deselected hold 5, defaulted entry),
reduction factor 2. -/
theorem outputFrames_eq_holdSum_witness :
    ((1 : Int) ≤ 2 ∧ src3.pathExists = true ∧ src3.opens = true ∧
      src3.fps ≠ 0 ∧ src3.frames.length ≠ 0 ∧
      (∀ fd ∈ tl3, fd.selected.getD true = true →
        fd.original_frame < src3.frames.length) ∧
      (∀ fd ∈ tl3, fd.selected.getD true = true →
        1 ≤ fd.hold_duration.getD 2)) ∧
    (isOkE (render_custom_timing src3 tl3).1 = true ∧
    ((rcResult (render_custom_timing src3 tl3)).output_frames : Int) =
      ((tl3.filter (fun fd => fd.selected.getD true)).map
        (fun fd => fd.hold_duration.getD 2)).sum ∧
    isOkE (reduce_frames_authentic src3 true 2 true).1 = true ∧
    (authResult (reduce_frames_authentic src3 true 2 true)).output_frames =
      (authResult (reduce_frames_authentic src3 true 2 true)).kept_frames *
        (2 : Int).toNat) :=
  ⟨⟨by decide, by decide, by decide, by decide, by decide, by decide,
    by decide⟩,
   outputFrames_eq_holdSum src3 tl3 2 (by decide) (by decide) (by decide)
     (by decide) (by decide) (by decide) (by decide)⟩

theorem emitTimeline_cons (video : List Nat) (fd : FrameData)
    (rest : List FrameData) :
    emitTimeline video (fd :: rest) =
      (if fd.selected.getD true then
        match video.get? fd.original_frame with
        | some f => List.replicate (fd.hold_duration.getD 2).toNat f
        | none => []
      else []) ++ emitTimeline video rest := rfl

/-- C10: an entry with no selected key is rendered, and a selected
entry with no hold_duration key is emitted exactly 2 times — the
hard-coded default of `frame_data.get('hold_duration', 2)`, which takes
no reduction factor into account. -/
theorem renderDefaults (src : Source) (fd : FrameData)
    (rest : List FrameData) (hsel : fd.selected = none)
    (hhold : fd.hold_duration = none)
    (hlt : fd.original_frame < src.frames.length)
    (hop : src.opens = true) (hfps : src.fps ≠ 0) :
    emitTimeline src.frames (fd :: rest) =
      List.replicate 2 (src.frames.get ⟨fd.original_frame, hlt⟩) ++
        emitTimeline src.frames rest ∧
    (rcResult (render_custom_timing src (fd :: rest))).output_frames =
      2 + (emitTimeline src.frames rest).length := by
  have h1 : emitTimeline src.frames (fd :: rest) =
      List.replicate 2 (src.frames.get ⟨fd.original_frame, hlt⟩) ++
        emitTimeline src.frames rest := by
    rw [emitTimeline_cons, hsel, hhold, List.get?_eq_get hlt]
    rfl
  refine ⟨h1, ?_⟩
  have hout : (rcResult (render_custom_timing src (fd :: rest))).output_frames
      = (emitTimeline src.frames (fd :: rest)).length := by
    simp [render_custom_timing, hop, hfps, rcResult]
  rw [hout, h1]
  simp
  omega

/-- Witness for renderDefaults: a both-keys-absent entry over the
3-frame source is emitted twice. -/
theorem renderDefaults_witness :
    ((⟨2, none, none⟩ : FrameData).selected = none ∧
      (⟨2, none, none⟩ : FrameData).hold_duration = none ∧
      (⟨2, none, none⟩ : FrameData).original_frame < src3.frames.length ∧
      src3.opens = true ∧ src3.fps ≠ 0) ∧
    (emitTimeline src3.frames [⟨2, none, none⟩] =
      List.replicate 2 (src3.frames.get ⟨2, by decide⟩) ++
        emitTimeline src3.frames [] ∧
    (rcResult (render_custom_timing src3 [⟨2, none, none⟩])).output_frames =
      2 + (emitTimeline src3.frames []).length) :=
  ⟨⟨by decide, by decide, by decide, by decide, by decide⟩,
   renderDefaults src3 ⟨2, none, none⟩ [] (by decide) (by decide)
     (by decide) (by decide) (by decide)⟩

/-- C8 counterexample: a selected timeline entry overriding
hold_duration to 0 does not make render_custom_timing fail: the render
succeeds and the entry simply contributes 0 output frames (Python
`range(0)` is empty), so a holdDuration below 1 IS silently accepted. -/
theorem holdValidation_counterexample :
    isOkE (render_custom_timing src3 [⟨0, some 0, some true⟩]).1 = true ∧
    (rcResult (render_custom_timing src3 [⟨0, some 0, some true⟩])).output_frames
      = 0 := by
  exact ⟨by decide, by decide⟩

/-- C8 amended: render_custom_timing performs no holdDuration
validation: a selected entry whose hold_duration override is ≤ 0 is
silently accepted, contributes zero output frames, and the render still
succeeds (no applyOverrides validation layer exists anywhere). -/
theorem holdNonpositive_silently_accepted (src : Source) (fd : FrameData)
    (rest : List FrameData) (h : Int) (hsel : fd.selected.getD true = true)
    (hhold : fd.hold_duration = some h) (hle : h ≤ 0)
    (hop : src.opens = true) (hfps : src.fps ≠ 0) :
    emitTimeline src.frames (fd :: rest) = emitTimeline src.frames rest ∧
    isOkE (render_custom_timing src (fd :: rest)).1 = true := by
  constructor
  · rw [emitTimeline_cons, if_pos hsel, hhold]
    cases hg : src.frames.get? fd.original_frame
    · simp
    · simp [Int.toNat_of_nonpos hle]
  · simp [render_custom_timing, hop, hfps, isOkE]

/-- Witness for holdNonpositive_silently_accepted: an entry holding -4
over the 3-frame source. -/
theorem holdNonpositive_silently_accepted_witness :
    ((⟨0, some (-4), some true⟩ : FrameData).selected.getD true = true ∧
      (⟨0, some (-4), some true⟩ : FrameData).hold_duration = some (-4) ∧
      ((-4 : Int) ≤ 0) ∧ src3.opens = true ∧ src3.fps ≠ 0) ∧
    (emitTimeline src3.frames [⟨0, some (-4), some true⟩] =
      emitTimeline src3.frames [] ∧
    isOkE (render_custom_timing src3 [⟨0, some (-4), some true⟩]).1 = true) :=
  ⟨⟨by decide, by decide, by decide, by decide, by decide⟩,
   holdNonpositive_silently_accepted src3 ⟨0, some (-4), some true⟩ []
     (-4) (by decide) (by decide) (by decide) (by decide) (by decide)⟩

/-- C4 counterexample: reduce_frames with a NEGATIVE reduction factor
(-2) on a valid 3-frame source does not fail at all — it succeeds,
keeping the frames whose index i satisfies i % -2 == 0 under Python
semantics (indices 0 and 2) — so reductionFactor < 1 is not rejected
with any InvalidInput error. -/
theorem reductionFactor_validation_counterexample :
    isOkE (reduce_frames src3 true (-2)).1 = true ∧
    (rfResult (reduce_frames src3 true (-2))).kept_frames = 2 ∧
    (rfResult (reduce_frames src3 true (-2))).keptIndices = [0, 2] := by
  exact ⟨by decide, by decide, by decide⟩

/-- C4 amended: no reductionFactor validation exists.  A negative
factor is silently accepted by reduce_frames and
extract_frames_with_metadata (both succeed), while a zero factor raises
ZeroDivisionError — not an InvalidInput-style error — from
`original_fps / 0` in reduce_frames and from `frame_count % 0` inside
the extraction loop. -/
theorem no_reductionFactor_validation (src : Source) (r : Int)
    (hr : r ≤ -1) (hex : src.pathExists = true) (hop : src.opens = true)
    (hfps : src.fps ≠ 0) (hN : src.frames.length ≠ 0) :
    isOkE (reduce_frames src true r).1 = true ∧
    isOkE (extract_frames_with_metadata src r).1 = true ∧
    (reduce_frames src true 0).1 = .error .zeroDivisionError ∧
    (extract_frames_with_metadata src 0).1 = .error .zeroDivisionError := by
  have hr0 : r ≠ 0 := by omega
  refine ⟨?_, ?_, ?_, ?_⟩
  · simp [reduce_frames, get_video_info, hex, hop, hfps, hr0, isOkE]
  · simp [extract_frames_with_metadata, hex, hop, hfps, hr0, isOkE]
  · simp [reduce_frames, get_video_info, hex, hop, hfps]
  · simp [extract_frames_with_metadata, hex, hop, hfps, hN]

/-- Witness for no_reductionFactor_validation at the 3-frame source
with r = -2. -/
theorem no_reductionFactor_validation_witness :
    ((-2 : Int) ≤ -1 ∧ src3.pathExists = true ∧ src3.opens = true ∧
      src3.fps ≠ 0 ∧ src3.frames.length ≠ 0) ∧
    (isOkE (reduce_frames src3 true (-2)).1 = true ∧
    isOkE (extract_frames_with_metadata src3 (-2)).1 = true ∧
    (reduce_frames src3 true 0).1 = .error .zeroDivisionError ∧
    (extract_frames_with_metadata src3 0).1 = .error .zeroDivisionError) :=
  ⟨⟨by decide, by decide, by decide, by decide, by decide⟩,
   no_reductionFactor_validation src3 (-2) (by decide) (by decide)
     (by decide) (by decide) (by decide)⟩

/-- C5 counterexample: on a source reporting 0 frames (and hence fps 0)
get_video_info does NOT return duration 0 — the unguarded
`frame_count / fps` division raises ZeroDivisionError (and the capture
is not released: leak count 1). -/
theorem fpsZero_guard_counterexample :
    get_video_info src0 = (.error .zeroDivisionError, 1) := rfl

/-- C5 amended: the duration divisions are NOT guarded: a 0-fps source
makes get_video_info raise ZeroDivisionError (leaking its capture), and
extract_frames_with_metadata does the same at its line-46 division;
reduce_frames and reduce_frames_authentic inherit the failure from
their initial get_video_info call, so the effective-frame-rate division
of reduce_frames_authentic is never even reached. -/
theorem fpsZero_unguarded (src : Source) (hop : src.opens = true)
    (hfps : src.fps = 0) :
    get_video_info src = (.error .zeroDivisionError, 1) ∧
    (src.pathExists = true → ∀ r : Int,
      extract_frames_with_metadata src r = (.error .zeroDivisionError, 1)) ∧
    (src.pathExists = true → ∀ (r : Int) (m : Bool),
      (reduce_frames_authentic src true r m).1 =
        .error .zeroDivisionError) := by
  refine ⟨?_, ?_, ?_⟩
  · simp [get_video_info, hop, hfps]
  · intro hex r
    simp [extract_frames_with_metadata, hex, hop, hfps]
  · intro hex r m
    simp [reduce_frames_authentic, get_video_info, hex, hop, hfps]

/-- Witness for fpsZero_unguarded at the 0-frame 0-fps source. -/
theorem fpsZero_unguarded_witness :
    (src0.opens = true ∧ src0.fps = 0) ∧
    (get_video_info src0 = (.error .zeroDivisionError, 1) ∧
    (src0.pathExists = true → ∀ r : Int,
      extract_frames_with_metadata src0 r = (.error .zeroDivisionError, 1)) ∧
    (src0.pathExists = true → ∀ (r : Int) (m : Bool),
      (reduce_frames_authentic src0 true r m).1 =
        .error .zeroDivisionError)) :=
  ⟨⟨by decide, by decide⟩, fpsZero_unguarded src0 (by decide) (by decide)⟩

/-- C9 counterexample: get_video_info on an opened 0-fps source exits
via an exception (ZeroDivisionError from the duration division, which
runs before cap.release() and outside any try/finally) with its
acquired capture handle NOT released: one handle leaks. -/
theorem handleRelease_counterexample :
    isOkE (get_video_info src0).1 = false ∧ (get_video_info src0).2 = 1 :=
  ⟨rfl, rfl⟩

/-- C9 amended: the frame loops all sit inside try/finally, so the
loop handles are released on every exit path; but code that runs
between acquiring a handle and entering the try block can raise and
leak: get_video_info releases its capture only on success (fps = 0
leaks it, and reduce_frames / reduce_frames_authentic /
extract_frames_with_metadata inherit that leak), and the makedirs call
of reduce_frames can raise after the capture is opened.  Whenever fps
is nonzero and the output directory is creatable, every operation
releases all handles it acquired. -/
theorem handles_released_when_preloop_succeeds (src : Source) (r : Int)
    (m : Bool) (tl : List FrameData) (hfps : src.fps ≠ 0) :
    (get_video_info src).2 = 0 ∧
    (reduce_frames src true r).2 = 0 ∧
    (reduce_frames_authentic src true r m).2 = 0 ∧
    (extract_frames_with_metadata src r).2 = 0 ∧
    (render_custom_timing src tl).2 = 0 := by
  have hgv : (get_video_info src).2 = 0 := by
    by_cases hop : src.opens <;> simp [get_video_info, hop, hfps]
  refine ⟨hgv, ?_, ?_, ?_, ?_⟩
  · by_cases hpe : src.pathExists
    · rcases hg : get_video_info src with ⟨res, k⟩
      have hk : k = 0 := by
        have h2 := hgv
        rw [hg] at h2
        exact h2
      subst hk
      cases res with
      | error e => simp [reduce_frames, hpe, hg]
      | ok info =>
        simp only [reduce_frames, hpe, hg, Bool.not_true, if_false,
                   ite_not]
        split_ifs <;> rfl
    · simp [reduce_frames, hpe]
  · by_cases hpe : src.pathExists
    · rcases hg : get_video_info src with ⟨res, k⟩
      have hk : k = 0 := by
        have h2 := hgv
        rw [hg] at h2
        exact h2
      subst hk
      cases res with
      | error e => simp [reduce_frames_authentic, hpe, hg]
      | ok info =>
        simp only [reduce_frames_authentic, hpe, hg, Bool.not_true,
                   if_false, ite_not]
        split_ifs <;> rfl
    · simp [reduce_frames_authentic, hpe]
  · by_cases hpe : src.pathExists
    · by_cases hop : src.opens
      · simp only [extract_frames_with_metadata, hpe, hop, hfps,
                   Bool.not_true, if_false, ite_not]
        split_ifs <;> rfl
      · simp [extract_frames_with_metadata, hpe, hop]
    · simp [extract_frames_with_metadata, hpe]
  · by_cases hop : src.opens
    · simp only [render_custom_timing, hop, Bool.not_true, if_false,
                 ite_not]
      split_ifs <;> rfl
    · simp [render_custom_timing, hop]

/-- Witness for handles_released_when_preloop_succeeds at the 3-frame
source, factor 2, maintain_duration, timeline tl3. -/
theorem handles_released_witness :
    (src3.fps ≠ 0) ∧
    ((get_video_info src3).2 = 0 ∧
    (reduce_frames src3 true 2).2 = 0 ∧
    (reduce_frames_authentic src3 true 2 true).2 = 0 ∧
    (extract_frames_with_metadata src3 2).2 = 0 ∧
    (render_custom_timing src3 tl3).2 = 0) :=
  ⟨by decide, handles_released_when_preloop_succeeds src3 2 true tl3
    (by decide)⟩

theorem digitVal_digitChar (d : Nat) (hd : d < 10) :
    digitVal (Char.ofNat (48 + d)) = some d := by
  interval_cases d <;> rfl

theorem natToChars_shape (n : Nat) :
    ∃ c t, natToChars n = c :: t ∧ (digitVal c).isSome = true := by
  induction n using Nat.strong_induction_on with
  | _ n ih =>
    by_cases h : n < 10
    · refine ⟨Char.ofNat (48 + n), [], ?_, ?_⟩
      · rw [natToChars]
        simp [h]
      · rw [digitVal_digitChar n h]
        rfl
    · obtain ⟨c, t, hct, hc⟩ :=
        ih (n / 10) (Nat.div_lt_self (by omega) (by omega))
      refine ⟨c, t ++ [Char.ofNat (48 + n % 10)], ?_, hc⟩
      rw [natToChars]
      simp [h, hct]

theorem parseDigits_stop (cs : Str) (acc : Nat)
    (h : notDigitStartB cs = true) : parseDigits cs acc = (acc, cs) := by
  cases cs with
  | nil => rfl
  | cons c cs2 =>
    have hc : digitVal c = none := by
      simpa [notDigitStartB, Option.isNone_iff_eq_none] using h
    simp [parseDigits, hc]

theorem parseDigits_append (n : Nat) :
    ∀ acc rest, parseDigits (natToChars n ++ rest) acc =
      parseDigits rest (acc * 10 ^ (natToChars n).length + n) := by
  induction n using Nat.strong_induction_on with
  | _ n ih =>
    intro acc rest
    by_cases h : n < 10
    · rw [natToChars]
      simp only [h, dite_true, dif_pos]
      rw [List.singleton_append]
      simp only [List.length_singleton, pow_one]
      simp [parseDigits, digitVal_digitChar n h]
    · rw [natToChars]
      simp only [h, dite_false, dif_neg, not_false_iff]
      rw [List.append_assoc, List.singleton_append,
          ih (n / 10) (Nat.div_lt_self (by omega) (by omega))]
      have hstep : parseDigits
          (Char.ofNat (48 + n % 10) :: rest)
          (acc * 10 ^ (natToChars (n / 10)).length + n / 10) =
          parseDigits rest
            ((acc * 10 ^ (natToChars (n / 10)).length + n / 10) * 10 +
              n % 10) := by
        simp [parseDigits, digitVal_digitChar (n % 10) (Nat.mod_lt _ (by omega))]
      rw [hstep]
      congr 1
      have hlen : (natToChars (n / 10) ++ [Char.ofNat (48 + n % 10)]).length
          = (natToChars (n / 10)).length + 1 := by
        simp
      rw [hlen, pow_succ]
      have hdm : 10 * (n / 10) + n % 10 = n := Nat.div_add_mod n 10
      ring_nf
      omega

theorem parseNat_append (n : Nat) (rest : Str)
    (hr : notDigitStartB rest = true) :
    parseNat (natToChars n ++ rest) = some (n, rest) := by
  obtain ⟨c, t, hct, hc⟩ := natToChars_shape n
  have hcons : natToChars n ++ rest = c :: (t ++ rest) := by
    rw [hct]
    rfl
  rw [hcons]
  simp only [parseNat, hc, if_pos]
  rw [← hcons, parseDigits_append n 0 rest]
  simp only [Nat.zero_mul, Nat.zero_add]
  rw [parseDigits_stop rest n hr]

theorem parseInt_append (i : Int) (rest : Str)
    (hr : notDigitStartB rest = true) :
    parseInt (intToChars i ++ rest) = some (i, rest) := by
  by_cases hneg : i < 0
  · have : intToChars i = '-' :: natToChars i.natAbs := by
      simp [intToChars, hneg]
    rw [this, List.cons_append]
    simp only [parseInt, if_pos rfl, reduceIte]
    rw [parseNat_append i.natAbs rest hr]
    have hval : -(i.natAbs : Int) = i := by omega
    show some (-(i.natAbs : Int), rest) = some (i, rest)
    rw [hval]
  · have hi : intToChars i = natToChars i.toNat := by
      simp [intToChars, hneg]
    obtain ⟨c, t, hct, hc⟩ := natToChars_shape i.toNat
    have hcons : intToChars i ++ rest = c :: (t ++ rest) := by
      rw [hi, hct]
      rfl
    have hcm : c ≠ '-' := by
      intro he
      subst he
      exact absurd hc (by decide)
    rw [hcons]
    simp only [parseInt, if_neg hcm]
    rw [← hcons, hi, parseNat_append i.toNat rest hr]
    have hval : (i.toNat : Int) = i := by omega
    show some ((i.toNat : Int), rest) = some (i, rest)
    rw [hval]

theorem takeStr_append (s rest : Str) (hv : validStrB s = true) :
    takeStr (s ++ '"' :: rest) = some (s, rest) := by
  induction s with
  | nil => rfl
  | cons c cs ih =>
    have hv2 : (c != '"' && c != '\\') = true ∧ validStrB cs = true := by
      simpa [validStrB, List.all_cons] using hv
    have hcq : c ≠ '"' := by
      have := hv2.1
      simp only [Bool.and_eq_true, bne_iff_ne] at this
      exact this.1
    rw [List.cons_append]
    simp only [takeStr, if_neg hcq]
    rw [ih hv2.2]
    rfl

theorem intToChars_shape (i : Int) :
    ∃ c t, intToChars i = c :: t ∧
      (c = '-' ∨ (digitVal c).isSome = true) := by
  by_cases hneg : i < 0
  · exact ⟨'-', natToChars i.natAbs, by simp [intToChars, hneg], Or.inl rfl⟩
  · obtain ⟨c, t, hct, hc⟩ := natToChars_shape i.toNat
    exact ⟨c, t, by simp [intToChars, hneg, hct], Or.inr hc⟩

theorem parseAtom_append (a : JAtom) (rest : Str)
    (hv : validAtomB a = true) (hr : notDigitStartB rest = true) :
    parseAtom (writeAtom a ++ rest) = some (a, rest) := by
  cases a with
  | jnull => rfl
  | jbool b => cases b <;> rfl
  | jstr s =>
    have hvs : validStrB s = true := hv
    have hsh : writeAtom (.jstr s) ++ rest = '"' :: (s ++ '"' :: rest) := by
      simp [writeAtom]
    rw [hsh]
    simp only [parseAtom, if_pos rfl, reduceIte]
    rw [takeStr_append s rest hvs]
    rfl
  | jint n =>
    obtain ⟨c, t, hct, hc⟩ := intToChars_shape n
    have hne : ∀ x : Char, (x = '-' → False) →
        ((digitVal x).isSome = true → False) → c ≠ x := by
      intro x hx1 hx2 he
      subst he
      rcases hc with h | h
      · exact hx1 h
      · exact hx2 h
    have hcq : c ≠ '"' := hne _ (by decide) (by decide)
    have hcn : c ≠ 'n' := hne _ (by decide) (by decide)
    have hctc : c ≠ 't' := hne _ (by decide) (by decide)
    have hcf : c ≠ 'f' := hne _ (by decide) (by decide)
    have hcons : writeAtom (.jint n) ++ rest = c :: (t ++ rest) := by
      simp [writeAtom, hct]
    have hcons2 : c :: (t ++ rest) = intToChars n ++ rest := by
      rw [hct]
      rfl
    rw [hcons]
    simp only [parseAtom, if_neg hcq, if_neg hcn, if_neg hctc, if_neg hcf]
    rw [hcons2, parseInt_append n rest hr]
    rfl

theorem parseField_append (f : JField) (rest : Str)
    (hv : validFieldB f = true) (hr : notDigitStartB rest = true) :
    parseField (writeField f ++ rest) = some (f, rest) := by
  obtain ⟨k, a⟩ := f
  have hvk : validStrB k = true ∧ validAtomB a = true := by
    simpa [validFieldB, Bool.and_eq_true] using hv
  have hsh : writeField (k, a) ++ rest =
      '"' :: (k ++ '"' :: (':' :: ' ' :: (writeAtom a ++ rest))) := by
    simp [writeField]
  rw [hsh]
  simp only [parseField]
  rw [takeStr_append k (':' :: ' ' :: (writeAtom a ++ rest)) hvk.1]
  simp [parseAtom_append a rest hvk.2 hr]

theorem notDigitStartB_fieldsTail (fs : List JField) (rest : Str) :
    notDigitStartB (writeFieldsTail fs ++ '}' :: rest) = true := by
  cases fs <;> rfl

theorem notDigitStartB_entriesTail (es : List JEntry) (rest : Str) :
    notDigitStartB (writeEntriesTail es ++ ']' :: rest) = true := by
  cases es <;> rfl

theorem jsize_cons (e : JEntry) (es : JFrames) :
    jsize (e :: es) = 1 + e.length + jsize es := by
  simp [jsize]
  omega

theorem parseFieldsTail_close (fuel : Nat) (rest : Str) :
    parseFieldsTail (fuel + 1) ('}' :: rest) = some ([], rest) := rfl

theorem parseFieldsTail_comma (fuel : Nat) (cs : Str) :
    parseFieldsTail (fuel + 1) (',' :: ' ' :: cs) =
      match parseField cs with
      | some (f, r1) =>
        (parseFieldsTail fuel r1).map (fun p => (f :: p.1, p.2))
      | none => none := rfl

theorem parseEntry_open (fuel : Nat) (cs : Str) :
    parseEntry fuel ('{' :: '"' :: cs) =
      match parseField ('"' :: cs) with
      | some (f, r1) =>
        (parseFieldsTail fuel r1).map (fun p => (f :: p.1, p.2))
      | none => none := rfl

theorem parseEntriesTail_close (fuel : Nat) (rest : Str) :
    parseEntriesTail (fuel + 1) (']' :: rest) = some ([], rest) := rfl

theorem parseEntriesTail_comma (fuel : Nat) (cs : Str) :
    parseEntriesTail (fuel + 1) (',' :: ' ' :: cs) =
      match parseEntry fuel cs with
      | some (e, r1) =>
        (parseEntriesTail fuel r1).map (fun p => (e :: p.1, p.2))
      | none => none := rfl

theorem parseFrames_open (fuel : Nat) (cs : Str) :
    parseFrames fuel ('[' :: '{' :: cs) =
      match parseEntry fuel ('{' :: cs) with
      | some (e, r1) =>
        (parseEntriesTail fuel r1).map (fun p => (e :: p.1, p.2))
      | none => none := rfl

theorem parseFieldsTail_append (fs : List JField) (rest : Str)
    (hv : fs.all validFieldB = true) :
    ∀ fuel, fs.length < fuel →
      parseFieldsTail fuel (writeFieldsTail fs ++ '}' :: rest) =
        some (fs, rest) := by
  induction fs with
  | nil =>
    intro fuel hfuel
    cases fuel with
    | zero => omega
    | succ m => exact parseFieldsTail_close m rest
  | cons f fs2 ih =>
    intro fuel hfuel
    cases fuel with
    | zero => omega
    | succ m =>
      have hm : fs2.length < m := by
        simp only [List.length_cons] at hfuel
        omega
      have hvf : validFieldB f = true ∧ fs2.all validFieldB = true := by
        simpa [List.all_cons, Bool.and_eq_true] using hv
      have hsh : writeFieldsTail (f :: fs2) ++ '}' :: rest =
          ',' :: ' ' ::
            (writeField f ++ (writeFieldsTail fs2 ++ '}' :: rest)) := by
        simp [writeFieldsTail]
      rw [hsh, parseFieldsTail_comma m
            (writeField f ++ (writeFieldsTail fs2 ++ '}' :: rest)),
          parseField_append f (writeFieldsTail fs2 ++ '}' :: rest) hvf.1
            (notDigitStartB_fieldsTail fs2 rest)]
      simp [ih hvf.2 m hm]

theorem writeEntry_shape (e : JEntry) : ∃ t, writeEntry e = '{' :: t := by
  cases e with
  | nil => exact ⟨['}'], rfl⟩
  | cons f fs =>
    exact ⟨writeField f ++ writeFieldsTail fs ++ ['}'], rfl⟩

theorem parseEntry_append (e : JEntry) (rest : Str)
    (hv : validEntryB e = true) :
    ∀ fuel, e.length ≤ fuel →
      parseEntry fuel (writeEntry e ++ rest) = some (e, rest) := by
  intro fuel hfuel
  cases e with
  | nil => rfl
  | cons f fs =>
    obtain ⟨k, a⟩ := f
    have hm : fs.length < fuel := by
      simp only [List.length_cons] at hfuel
      omega
    have hvf : validFieldB (k, a) = true ∧ fs.all validFieldB = true := by
      simpa [validEntryB, List.all_cons, Bool.and_eq_true] using hv
    have hsplit : writeEntry ((k, a) :: fs) ++ rest =
        '{' :: '"' :: (k ++ '"' :: ':' :: ' ' ::
          (writeAtom a ++ (writeFieldsTail fs ++ '}' :: rest))) := by
      simp [writeEntry, writeField]
    have hback : ('"' : Char) :: (k ++ '"' :: ':' :: ' ' ::
        (writeAtom a ++ (writeFieldsTail fs ++ '}' :: rest))) =
        writeField (k, a) ++ (writeFieldsTail fs ++ '}' :: rest) := by
      simp [writeField]
    rw [hsplit, parseEntry_open fuel, hback,
        parseField_append (k, a) (writeFieldsTail fs ++ '}' :: rest) hvf.1
          (notDigitStartB_fieldsTail fs rest)]
    simp [parseFieldsTail_append fs rest hvf.2 fuel hm]

theorem parseEntriesTail_append (es : JFrames) (rest : Str)
    (hv : es.all validEntryB = true) :
    ∀ fuel, jsize es < fuel →
      parseEntriesTail fuel (writeEntriesTail es ++ ']' :: rest) =
        some (es, rest) := by
  induction es with
  | nil =>
    intro fuel hfuel
    cases fuel with
    | zero => omega
    | succ m => exact parseEntriesTail_close m rest
  | cons e es2 ih =>
    intro fuel hfuel
    cases fuel with
    | zero => omega
    | succ m =>
      have hsz := jsize_cons e es2
      have hve : validEntryB e = true ∧ es2.all validEntryB = true := by
        simpa [List.all_cons, Bool.and_eq_true] using hv
      have hsh : writeEntriesTail (e :: es2) ++ ']' :: rest =
          ',' :: ' ' ::
            (writeEntry e ++ (writeEntriesTail es2 ++ ']' :: rest)) := by
        simp [writeEntriesTail]
      rw [hsh, parseEntriesTail_comma m
            (writeEntry e ++ (writeEntriesTail es2 ++ ']' :: rest)),
          parseEntry_append e (writeEntriesTail es2 ++ ']' :: rest) hve.1 m
            (by omega)]
      simp [ih hve.2 m (by omega)]

theorem parseFrames_append (es : JFrames) (rest : Str)
    (hv : validFramesB es = true) (fuel : Nat) (hfuel : jsize es ≤ fuel) :
    parseFrames fuel (writeFrames es ++ rest) = some (es, rest) := by
  cases es with
  | nil => rfl
  | cons e es2 =>
    have hsz := jsize_cons e es2
    have hve : validEntryB e = true ∧ es2.all validEntryB = true := by
      simpa [validFramesB, List.all_cons, Bool.and_eq_true] using hv
    obtain ⟨t, ht⟩ := writeEntry_shape e
    have hsh : writeFrames (e :: es2) ++ rest =
        '[' :: '{' :: (t ++ (writeEntriesTail es2 ++ ']' :: rest)) := by
      simp [writeFrames, ht]
    have hback : ('{' : Char) :: (t ++ (writeEntriesTail es2 ++ ']' :: rest))
        = writeEntry e ++ (writeEntriesTail es2 ++ ']' :: rest) := by
      rw [ht]
      rfl
    rw [hsh, parseFrames_open fuel, hback,
        parseEntry_append e (writeEntriesTail es2 ++ ']' :: rest) hve.1 fuel
          (by omega)]
    simp [parseEntriesTail_append es2 rest hve.2 fuel (by omega)]

theorem writeFieldsTail_length (fs : List JField) :
    fs.length ≤ (writeFieldsTail fs).length := by
  induction fs with
  | nil => simp [writeFieldsTail]
  | cons f fs ih =>
    simp only [writeFieldsTail, List.length_cons, List.length_append]
    omega

theorem writeEntry_length (e : JEntry) :
    e.length + 1 ≤ (writeEntry e).length := by
  cases e with
  | nil => simp [writeEntry]
  | cons f fs =>
    have h1 := writeFieldsTail_length fs
    simp only [writeEntry, List.length_cons, List.length_append]
    omega

theorem writeEntriesTail_length (es : JFrames) :
    jsize es ≤ (writeEntriesTail es).length := by
  induction es with
  | nil => simp [writeEntriesTail, jsize]
  | cons e es ih =>
    have h1 := writeEntry_length e
    rw [jsize_cons]
    simp only [writeEntriesTail, List.length_cons, List.length_append]
    omega

theorem writeFrames_length (es : JFrames) :
    jsize es ≤ (writeFrames es).length := by
  cases es with
  | nil => simp [writeFrames, jsize]
  | cons e es2 =>
    have h1 := writeEntry_length e
    have h2 := writeEntriesTail_length es2
    rw [jsize_cons]
    simp only [writeFrames, List.length_cons, List.length_append]
    omega

theorem save_size (fd : JFrames) :
    jsize fd ≤ (save_timeline_config fd).length := by
  have h1 := writeFrames_length fd
  simp only [save_timeline_config, List.length_cons, List.length_append]
  omega

theorem parseConfig_save (fd : JFrames) (hv : validFramesB fd = true)
    (fuel : Nat) (hfuel : jsize fd ≤ fuel) :
    parseConfig fuel (save_timeline_config fd) =
      some ⟨(versionKey, .jstr versionVal), framesKey, fd,
            (createdKey, .jstr createdVal)⟩ := by
  have h0 : save_timeline_config fd =
      '{' :: (writeField (versionKey, .jstr versionVal) ++
        (',' :: ' ' :: '"' :: (framesKey ++
          ('"' :: ':' :: ' ' :: (writeFrames fd ++
            (',' :: ' ' ::
              (writeField (createdKey, .jstr createdVal) ++ ['}']))))))) := by
    simp [save_timeline_config]
  have hp1 := parseField_append (versionKey, .jstr versionVal)
    (',' :: ' ' :: '"' :: (framesKey ++
      ('"' :: ':' :: ' ' :: (writeFrames fd ++
        (',' :: ' ' :: (writeField (createdKey, .jstr createdVal) ++ ['}']))))))
    (by decide) rfl
  have hts := takeStr_append framesKey
    (':' :: ' ' :: (writeFrames fd ++
      (',' :: ' ' :: (writeField (createdKey, .jstr createdVal) ++ ['}']))))
    (by decide)
  have hpf := parseFrames_append fd
    (',' :: ' ' :: (writeField (createdKey, .jstr createdVal) ++ ['}']))
    hv fuel hfuel
  have hp3 := parseField_append (createdKey, .jstr createdVal) ['}']
    (by decide) rfl
  rw [h0]
  simp [parseConfig, hp1, hts, hpf, hp3]

/-- C6: loading a saved timeline configuration returns frames content
equal to what was saved (with version '1.0' and created_at 'unknown'
around it), and saving the loaded frames again reproduces the exact
same bytes: load_timeline_config after save_timeline_config round-trips
any valid TimelineEntry sequence exactly, order and field values
preserved. -/
theorem timeline_save_load_roundtrip (fd : JFrames)
    (hv : validFramesB fd = true) :
    load_timeline_config (save_timeline_config fd) =
      some ⟨(versionKey, .jstr versionVal), framesKey, fd,
            (createdKey, .jstr createdVal)⟩ ∧
    loadedFrames (save_timeline_config fd) = fd ∧
    save_timeline_config (loadedFrames (save_timeline_config fd)) =
      save_timeline_config fd := by
  have h1 : load_timeline_config (save_timeline_config fd) =
      some ⟨(versionKey, .jstr versionVal), framesKey, fd,
            (createdKey, .jstr createdVal)⟩ :=
    parseConfig_save fd hv (save_timeline_config fd).length (save_size fd)
  have h2 : loadedFrames (save_timeline_config fd) = fd := by
    simp [loadedFrames, h1]
  exact ⟨h1, h2, by rw [h2]⟩

/-- Witness for timeline_save_load_roundtrip on the concrete one-entry
frames list fd0. -/
theorem timeline_save_load_roundtrip_witness :
    validFramesB fd0 = true ∧
    (load_timeline_config (save_timeline_config fd0) =
      some ⟨(versionKey, .jstr versionVal), framesKey, fd0,
            (createdKey, .jstr createdVal)⟩ ∧
    loadedFrames (save_timeline_config fd0) = fd0 ∧
    save_timeline_config (loadedFrames (save_timeline_config fd0)) =
      save_timeline_config fd0) :=
  ⟨by decide, timeline_save_load_roundtrip fd0 (by decide)⟩
